import Mathlib

/-!
Verification development for the content-service repository, covering the
bulk ingestion pipeline (`src/routes/staging_content/bulk.js`), the staging
content removal helper (`src/routes/staging_content/remove.js`), the store
helper (`storeStagingEnvelope`), and the remote storage driver
(`src/storage/remote.js`).

The JavaScript source is shallowly embedded: JSON payloads become an
inductive `JVal`, the JS object used as a keep set becomes a dictionary
that models property lookup through the `Object.prototype` chain,
`decodeURIComponent` / `encodeURIComponent` are implemented over character
lists, and the event-driven completion logic becomes an explicit state
machine over event traces.
-/

set_option maxHeartbeats 1000000

/-- Values produced by `JSON.parse`: null, booleans, numbers (integral
numbers only; the payloads relevant here use none other), strings, arrays
and objects. Objects are association lists of fields. -/
inductive JVal where
  | null
  | bool (b : Bool)
  | num (n : Int)
  | str (s : String)
  | arr (elems : List JVal)
  | obj (fields : List (String × JVal))
deriving Repr

/-- JavaScript truthiness of a value, as used by `if (!config.contentIDBase)`
and `if (!contentIDBase)` in bulk.js: null, false, 0 and the empty string
are falsy; arrays and objects are always truthy. -/
def jsTruthy : JVal → Bool
  | .null => false
  | .bool b => b
  | .num n => n != 0
  | .str s => !s.isEmpty
  | .arr _ => true
  | .obj _ => true

/-- Property access `v.k` on a parsed JSON value: on an object, the field
value; everywhere else `undefined` (modelled as `none`). -/
def jsGet (v : JVal) (k : String) : Option JVal :=
  match v with
  | .obj fields => fields.lookup k
  | _ => none

/-- Truthiness of a possibly-undefined value (`undefined` is falsy). -/
def jsTruthyOpt : Option JVal → Bool
  | none => false
  | some v => jsTruthy v

mutual

/-- JavaScript `String(v)` coercion, used when a parsed JSON value is used
as a property key in `toKeep[contentID] = true`. Arrays stringify to their
elements joined with commas (null elements as the empty string); objects
to "[object Object]". -/
def jsToString : JVal → String
  | .null => "null"
  | .bool b => if b then "true" else "false"
  | .num n => toString n
  | .str s => s
  | .arr xs => String.intercalate "," (jsArrStrings xs)
  | .obj _ => "[object Object]"

/-- Stringification of array elements for `Array.prototype.toString`:
a null element contributes the empty string. -/
def jsArrStrings : List JVal → List String
  | [] => []
  | .null :: rest => "" :: jsArrStrings rest
  | v :: rest => jsToString v :: jsArrStrings rest

end

/-- Own-property names of `Object.prototype` (those visible on every plain
object literal through the prototype chain). A lookup `toKeep[id]` on a
`let toKeep = {}` object yields a truthy inherited value for each of these
keys even when the key was never assigned. -/
def objectProtoNames : List String :=
  ["constructor", "hasOwnProperty", "isPrototypeOf", "propertyIsEnumerable",
   "toLocaleString", "toString", "valueOf", "__defineGetter__",
   "__defineSetter__", "__lookupGetter__", "__lookupSetter__", "__proto__"]

/-- Assignment `d[k] = true` on a plain object literal used as a set: an
ordinary key becomes an own property; assigning to "__proto__" hits the
inherited accessor and, with a non-object right-hand side, changes
nothing. The dictionary carries the own-property keys. -/
def dictSet (d : List String) (k : String) : List String :=
  if k = "__proto__" then d else k :: d

/-- Truthiness of the lookup `d[k]` on the object literal: truthy when `k`
is an own property (assigned `true`) or when `k` is inherited from
`Object.prototype` (functions and objects are truthy). -/
def dictTruthy (d : List String) (k : String) : Bool :=
  d.contains k || objectProtoNames.contains k

/-- Character-list split on a separator, used for
`path.dirname(entryPath).split(path.sep)`. -/
def splitOnChar (sep : Char) : List Char → List (List Char)
  | [] => [[]]
  | c :: rest =>
    let r := splitOnChar sep rest
    if c = sep then [] :: r
    else
      match r with
      | [] => [[c]]
      | g :: gs => (c :: g) :: gs

/-- Drop trailing path separators, as the Node path functions do. -/
def stripTrailingSep (cs : List Char) : List Char :=
  (cs.reverse.dropWhile (· = '/')).reverse

/-- Node `path.basename(p)`: the component after the last separator, with
trailing separators ignored. -/
def basenameOf (p : String) : String :=
  String.mk (((stripTrailingSep p.data).reverse.takeWhile (· ≠ '/')).reverse)

/-- Node `path.basename(p, ext)`: the basename with `ext` removed when it
is a proper suffix. -/
def basenameExtOf (p ext : String) : String :=
  let b := basenameOf p
  if ext.data.isSuffixOf b.data ∧ ext.data.length < b.data.length then
    String.mk (b.data.take (b.data.length - ext.data.length))
  else b

/-- Node `path.dirname(p)`: everything before the last separator (a dot when
there is none, the root when only it remains). -/
def dirnameOf (p : String) : String :=
  let rev := (stripTrailingSep p.data).reverse
  let pre := rev.dropWhile (· ≠ '/')
  match pre with
  | [] => "."
  | _ =>
    let core := pre.dropWhile (· = '/')
    if core.isEmpty then "/" else String.mk core.reverse

/-- Last component of `path.dirname(entryPath).split(path.sep)`, the
directory name the entry dispatcher in bulk.js classifies on. -/
def dnameOf (p : String) : String :=
  String.mk ((splitOnChar '/' (dirnameOf p).data).getLastD [])

/-- Suffix test for `bname.endsWith(".json")`. -/
def strEndsWith (s suffix : String) : Bool :=
  suffix.data.isSuffixOf s.data

/-- Value of a hexadecimal digit character, or `none`. -/
def hexDigit (c : Char) : Option Nat :=
  if '0' ≤ c ∧ c ≤ '9' then some (c.toNat - '0'.toNat)
  else if 'a' ≤ c ∧ c ≤ 'f' then some (c.toNat - 'a'.toNat + 10)
  else if 'A' ≤ c ∧ c ≤ 'F' then some (c.toNat - 'A'.toNat + 10)
  else none

/-- A token of a percent-encoded string: a literal character or the byte
of one `%XX` escape. -/
inductive PctToken where
  | raw (c : Char)
  | byte (b : Nat)
deriving Repr, DecidableEq

/-- Tokenize a percent-encoded string: each `%` must be followed by two
hex digits (otherwise `decodeURIComponent` throws a URIError, modelled as
`none`); other characters pass through. -/
def pctTokenize : List Char → Option (List PctToken)
  | [] => some []
  | '%' :: h1 :: h2 :: rest => do
    let hi ← hexDigit h1
    let lo ← hexDigit h2
    let ts ← pctTokenize rest
    pure (.byte (16 * hi + lo) :: ts)
  | '%' :: _ => none
  | c :: rest => do
    let ts ← pctTokenize rest
    pure (.raw c :: ts)

/-- A Unicode scalar value: not a surrogate and at most 0x10FFFF. -/
def validScalar (n : Nat) : Bool :=
  (n < 0xD800 || (0xDFFF < n && n < 0x110000))

/-- Whether a byte is a UTF-8 continuation byte. -/
def isCont (b : Nat) : Bool := 0x80 ≤ b && b < 0xC0

/-- Decode the token stream of `decodeURIComponent`: escape bytes must
form valid (non-overlong) UTF-8 sequences; literal characters pass
through. Invalid sequences make `decodeURIComponent` throw (`none`). -/
def pctDecodeTokens : List PctToken → Option (List Char)
  | [] => some []
  | .raw c :: ts => do
    let cs ← pctDecodeTokens ts
    pure (c :: cs)
  | .byte b :: ts =>
    if b < 0x80 then do
      let cs ← pctDecodeTokens ts
      pure (Char.ofNat b :: cs)
    else if 0xC0 ≤ b ∧ b < 0xE0 then
      match ts with
      | .byte b2 :: ts2 =>
        if isCont b2 then
          let n := (b - 0xC0) * 64 + (b2 - 0x80)
          if 0x80 ≤ n ∧ validScalar n then do
            let cs ← pctDecodeTokens ts2
            pure (Char.ofNat n :: cs)
          else none
        else none
      | _ => none
    else if 0xE0 ≤ b ∧ b < 0xF0 then
      match ts with
      | .byte b2 :: .byte b3 :: ts3 =>
        if isCont b2 && isCont b3 then
          let n := (b - 0xE0) * 4096 + (b2 - 0x80) * 64 + (b3 - 0x80)
          if 0x800 ≤ n ∧ validScalar n then do
            let cs ← pctDecodeTokens ts3
            pure (Char.ofNat n :: cs)
          else none
        else none
      | _ => none
    else if 0xF0 ≤ b ∧ b < 0xF8 then
      match ts with
      | .byte b2 :: .byte b3 :: .byte b4 :: ts4 =>
        if isCont b2 && isCont b3 && isCont b4 then
          let n := (b - 0xF0) * 262144 + (b2 - 0x80) * 4096 +
            (b3 - 0x80) * 64 + (b4 - 0x80)
          if 0x10000 ≤ n ∧ validScalar n then do
            let cs ← pctDecodeTokens ts4
            pure (Char.ofNat n :: cs)
          else none
        else none
      | _ => none
    else none

/-- JavaScript `decodeURIComponent`: percent-decode to bytes and decode
those bytes as UTF-8. `none` models a thrown URIError. -/
def decodeURIComponent (s : String) : Option String := do
  let ts ← pctTokenize s.data
  let cs ← pctDecodeTokens ts
  pure (String.mk cs)

/-- Characters `encodeURIComponent` leaves unescaped. -/
def uriUnreserved (c : Char) : Bool :=
  ('A' ≤ c && c ≤ 'Z') || ('a' ≤ c && c ≤ 'z') || ('0' ≤ c && c ≤ '9') ||
  c = '-' || c = '_' || c = '.' || c = '!' || c = '~' || c = '*' ||
  c = Char.ofNat 39 || c = '(' || c = ')'

/-- UTF-8 bytes of one scalar value. -/
def utf8Bytes (cp : Nat) : List Nat :=
  if cp < 0x80 then [cp]
  else if cp < 0x800 then [0xC0 + cp / 64, 0x80 + cp % 64]
  else if cp < 0x10000 then
    [0xE0 + cp / 4096, 0x80 + (cp / 64) % 64, 0x80 + cp % 64]
  else
    [0xF0 + cp / 262144, 0x80 + (cp / 4096) % 64, 0x80 + (cp / 64) % 64,
     0x80 + cp % 64]

/-- Uppercase hexadecimal digit. -/
def hexDigitChar (n : Nat) : Char :=
  if n < 10 then Char.ofNat ('0'.toNat + n) else Char.ofNat ('A'.toNat + n - 10)

/-- Encoding of a single character under `encodeURIComponent`. -/
def pctEncodeChar (c : Char) : List Char :=
  if uriUnreserved c then [c]
  else (utf8Bytes c.toNat).foldr
    (fun b acc => '%' :: hexDigitChar (b / 16) :: hexDigitChar (b % 16) :: acc) []

/-- JavaScript `encodeURIComponent`, used by the remote storage driver to
derive Cloud Files object names from content IDs. -/
def encodeURIComponent (s : String) : String :=
  String.mk (s.data.foldr (fun c acc => pctEncodeChar c ++ acc) [])

/-- Kind of a tar entry, from `header.type`: only file entries are
processed, everything else is skipped. -/
inductive EntryKind where
  | file
  | other
deriving Repr, DecidableEq

/-- Result of reading an entry body and parsing it as JSON
(`jsonFromStream`): either a parse failure or a parsed value. -/
inductive Body where
  | malformed
  | json (v : JVal)
deriving Repr

/-- One entry of the uploaded tar archive: its header type, its path and
its body. -/
structure Entry where
  kind : EntryKind
  path : String
  body : Body
deriving Repr

/-- Mutable state of one bulk upload request in bulk.js: the captured
`contentIDBase` (initially JS `null`), the own keys of the `toKeep` object
literal, the `failureCount` accumulated so far, and the ingestion tasks
pushed onto `uploadQueue` in order. -/
structure BulkState where
  contentIDBase : JVal
  toKeep : List String
  failureCount : Nat
  tasks : List (String × JVal)
deriving Repr

/-- Initial request state: `contentIDBase = null`, `toKeep = {}`, counters
zero, no queued tasks. -/
def initBulkState : BulkState := ⟨.null, [], 0, []⟩

/-- `handleConfigEntry` of bulk.js: on a parse failure or a falsy
`contentIDBase` field the error is logged and nothing changes; otherwise
the value of the field is captured into `contentIDBase`. -/
def handleConfigEntry (st : BulkState) (body : Body) : BulkState :=
  match body with
  | .malformed => st
  | .json config =>
    match jsGet config "contentIDBase" with
    | none => st
    | some v => if jsTruthy v then { st with contentIDBase := v } else st

/-- `handleKeepEntry` of bulk.js: on a parse failure or a falsy `keep`
field, nothing changes; when `keep.keep` is an array, each element is
assigned as a key of `toKeep` (stringified, as JS property keys are); a
truthy non-array makes the `forEach` call throw inside the try
block of the parse callback, which is caught and reported, changing nothing. -/
def handleKeepEntry (st : BulkState) (body : Body) : BulkState :=
  match body with
  | .malformed => st
  | .json keep =>
    match jsGet keep "keep" with
    | none => st
    | some v =>
      if jsTruthy v then
        match v with
        | .arr ids =>
          { st with toKeep := ids.foldl (fun d x => dictSet d (jsToString x)) st.toKeep }
        | _ => st
      else st

/-- `handleStagingEnvelopeEntry` of bulk.js: the content ID is the
percent-decoded basename of the entry path with the `.json` extension
stripped; it is added to `toKeep` before the body is parsed; a parse
failure then increments `failureCount`, a parse success pushes the
ingestion task. A `decodeURIComponent` failure throws out of the entry
handler (`none`): the request crashes. -/
def handleStagingEnvelopeEntry (st : BulkState) (entryPath : String)
    (body : Body) : Option BulkState :=
  match decodeURIComponent (basenameExtOf entryPath ".json") with
  | none => none
  | some contentID =>
    match body with
    | .malformed =>
      some { st with toKeep := dictSet st.toKeep contentID,
                     failureCount := st.failureCount + 1 }
    | .json envelope =>
      some { st with toKeep := dictSet st.toKeep contentID,
                     tasks := st.tasks ++ [(contentID, envelope)] }

/-- Whether the entry dispatcher routes this entry to
`handleStagingEnvelopeEntry`: a file entry whose directory is not
"metadata" and whose basename ends in ".json". -/
def isContentEntry (e : Entry) : Bool :=
  e.kind = EntryKind.file && dnameOf e.path ≠ "metadata" &&
    strEndsWith (basenameOf e.path) ".json"

/-- The entry dispatcher of bulk.js ("entry" event of the tar extractor): skip non-file
entries; under a "metadata" directory handle config.json and keep.json
(anything else is only logged); otherwise any `*.json` file is a staging
envelope entry; anything else is only logged. -/
def processEntry (st : BulkState) (e : Entry) : Option BulkState :=
  if e.kind ≠ EntryKind.file then some st
  else if dnameOf e.path = "metadata" then
    if basenameOf e.path = "config.json" then some (handleConfigEntry st e.body)
    else if basenameOf e.path = "keep.json" then some (handleKeepEntry st e.body)
    else some st
  else if strEndsWith (basenameOf e.path) ".json" then
    handleStagingEnvelopeEntry st e.path e.body
  else some st

/-- Process all archive entries in order (`none` when some entry handler
threw). -/
def processEntries (st : BulkState) : List Entry → Option BulkState
  | [] => some st
  | e :: es => do
    let st1 ← processEntry st e
    processEntries st1 es

/-- Success of one `storeStagingEnvelope` call (store.js): by
`async.parallel`, the combined callback receives no error exactly when
both the document-store write and the search-index write succeeded. -/
def storeStagingEnvelopeOk (storeOk indexOk : Bool) : Bool :=
  storeOk && indexOk

/-- `envelopeStagingWorker` processing of the queued tasks, folded over
the queue in order. `outcome i` gives the result pair (document-store
write ok, search-index write ok) of the i-th task. Returns the final
(`envelopeCount`, `failureCount` contribution): the worker increments
`envelopeCount` on combined success and `failureCount` on combined
failure, and calls its callback in both cases, so every queued task is
processed. -/
def runTasks (outcome : Nat → Bool × Bool) : Nat → List (String × JVal) → Nat × Nat
  | _, [] => (0, 0)
  | i, _ :: ts =>
    let rest := runTasks outcome (i + 1) ts
    if storeStagingEnvelopeOk (outcome i).1 (outcome i).2 then
      (rest.1 + 1, rest.2)
    else (rest.1, rest.2 + 1)

/-- Storage operations issued by `removeStagingEnvelopes` (remove.js): a
single-item list uses the single-item document-store delete and
search-index unindex; a longer list uses the bulk forms. -/
inductive RemovalOp where
  | deleteOne (id : String)
  | unindexOne (id : String)
  | bulkDelete (ids : List String)
  | bulkUnindex (ids : List String)
deriving Repr, DecidableEq

/-- `removeStagingEnvelopes` of remove.js, as the list of storage
operations it issues: an empty ID list issues nothing (the callback is
invoked on the next tick with no error); one ID issues the two
single-item operations in parallel; more IDs issue the two bulk
operations in parallel. -/
def removeStagingEnvelopes : List String → List RemovalOp
  | [] => []
  | [id] => [.deleteOne id, .unindexOne id]
  | ids => [.bulkDelete ids, .bulkUnindex ids]

/-- Whether the `removeStagingEnvelopes` callback receives an error: never
for the empty list (no storage call is made); otherwise `async.parallel`
reports an error exactly when some issued operation fails. -/
def removeStagingEnvelopesErr (opFails : RemovalOp → Bool) (ids : List String) : Bool :=
  (removeStagingEnvelopes ids).any opFails

/-- Staging storage state seen by the removal operations: the content IDs
present in the document store and those present in the search index. -/
structure StagingStore where
  docs : List String
  indexed : List String
deriving Repr, DecidableEq

/-- Effect of one removal operation on the staging storage state. -/
def applyRemovalOp (s : StagingStore) : RemovalOp → StagingStore
  | .deleteOne id => { s with docs := s.docs.filter (· ≠ id) }
  | .unindexOne id => { s with indexed := s.indexed.filter (· ≠ id) }
  | .bulkDelete ids => { s with docs := s.docs.filter (fun d => !ids.contains d) }
  | .bulkUnindex ids => { s with indexed := s.indexed.filter (fun d => !ids.contains d) }

/-- Effect of a list of removal operations on the staging storage state. -/
def applyRemovalOps (s : StagingStore) (ops : List RemovalOp) : StagingStore :=
  ops.foldl applyRemovalOp s

/-- External collaborators of one bulk request: the per-task storage
outcomes, the prefix listing of previously stored envelopes
(`storage.listStagingEnvelopes`, fed the captured `contentIDBase` as its
prefix), and a failure flag for the listing. -/
structure World where
  outcome : Nat → Bool × Bool
  listEnv : JVal → List String
  listErr : Bool

/-- How `removeDeletedStagingContent` ends. `skipped`: no truthy
`contentIDBase`, callback with no error. `listFailed`: the listing errors
and the callback receives that error. `crashedTypeError`: the listing
succeeded and line 134 of bulk.js is reached — it calls
`removeEnvelopes(toDelete, ...)`, but line 11 binds `removeEnvelopes` to
the `removeEnvelopes` property of the remove.js module, which exports
`handler` and `removeStagingEnvelopes` and no `removeEnvelopes`; the
binding is `undefined` and the call throws a TypeError inside the listing
callback, so neither the callback of `removeDeletedStagingContent` nor
`reportCompletion` ever runs on this path. -/
inductive ReconOutcome where
  | skipped
  | listFailed
  | crashedTypeError
deriving Repr, DecidableEq

/-- Result of `removeDeletedStagingContent` of bulk.js: the
`deletionCount` assigned at line 130 (0 when never assigned), the
`toDelete` list computed at line 129 (the IDs line 134 would hand to the
removal call), and how the function ends. -/
structure ReconResult where
  deletionCount : Nat
  deletedIDs : List String
  outcome : ReconOutcome
deriving Repr

/-- `removeDeletedStagingContent` of bulk.js: when the captured
`contentIDBase` is falsy, deletion is skipped entirely (callback with no
error, `deletionCount` stays 0, nothing listed or deleted). Otherwise the
existing envelopes under the prefix are listed; a listing error aborts
before `deletionCount` is assigned; otherwise `toDelete` is the listed
IDs whose `toKeep[id]` lookup is falsy and `deletionCount` becomes its
length — and then the call to the undefined `removeEnvelopes` binding
throws a TypeError (see `ReconOutcome.crashedTypeError`), so the removal
operations are never issued. -/
def removeDeletedStagingContent (w : World) (st : BulkState) : ReconResult :=
  if !jsTruthy st.contentIDBase then ⟨0, [], .skipped⟩
  else if w.listErr then ⟨0, [], .listFailed⟩
  else
    ⟨((w.listEnv st.contentIDBase).filter (fun id => !dictTruthy st.toKeep id)).length,
     (w.listEnv st.contentIDBase).filter (fun id => !dictTruthy st.toKeep id),
     .crashedTypeError⟩

/-- The uploaded request body: a stream that fails gzip decompression, a
gzip stream whose decompressed content fails tar extraction, or a
well-formed archive with its entries. -/
inductive Archive where
  | corruptGzip
  | corruptTar
  | entries (es : List Entry)

/-- The completion payload and status code sent by `reportCompletion`. -/
structure CompletionReport where
  accepted : Nat
  failed : Nat
  deleted : Nat
  status : Nat
deriving Repr, DecidableEq

/-- Observable outcome of one bulk upload request. `crashed` is an
uncaught exception escaping the route handler: the gunzip stream has no
error listener (stream piping does not forward errors), a
`decodeURIComponent` throw escapes the entry handler, and the TypeError
from the undefined `removeEnvelopes` binding escapes the listing
callback. `completed` carries whether a fatal reconciliation error
response was also issued before the completion report. -/
inductive BulkOutcome where
  | malformedArchive (status : Nat)
  | crashed
  | completed (reconErrSent : Bool) (report : CompletionReport)
deriving Repr, DecidableEq

/-- The completion payload and status of `reportCompletion` for a run
that reaches it: `accepted` and the task failures from the queue,
`failed` also counting parse failures, `deleted` from the reconciliation
result, status 200 when `failureCount` is 0 and 500 otherwise. -/
def reportCompletionOf (w : World) (st : BulkState) : CompletionReport :=
  ⟨(runTasks w.outcome 0 st.tasks).1,
   st.failureCount + (runTasks w.outcome 0 st.tasks).2,
   (removeDeletedStagingContent w st).deletionCount,
   if st.failureCount + (runTasks w.outcome 0 st.tasks).2 = 0 then 200 else 500⟩

/-- The bulk upload handler of bulk.js end to end: corrupt gzip input
crashes (no handler is attached to the gunzip stream); corrupt tar input
reaches the tar-extract error handler and is answered with status 400 and
no completion report; otherwise the entries are processed, the queued
tasks run and `finishRequest` runs reconciliation. When reconciliation
skips (no `contentIDBase`), `reportCompletion` runs; when the listing
fails, a fatal 400 error response is issued and `reportCompletion` still
runs; when the listing succeeds, the call to the undefined
`removeEnvelopes` binding throws and no completion report is ever sent. -/
def bulkHandler (w : World) (a : Archive) : BulkOutcome :=
  match a with
  | .corruptGzip => .crashed
  | .corruptTar => .malformedArchive 400
  | .entries es =>
    match processEntries initBulkState es with
    | none => .crashed
    | some st =>
      match (removeDeletedStagingContent w st).outcome with
      | .crashedTypeError => .crashed
      | .skipped => .completed false (reportCompletionOf w st)
      | .listFailed => .completed true (reportCompletionOf w st)

/-- State of the completion logic armed in the tar-extract finish
handler of bulk.js: the number of outstanding queued tasks (`uploadQueue.running()`
is truthy exactly when this is nonzero), whether `uploadQueue.drain` has
been set to `finishRequest`, whether the decode-finish event has fired,
and how many times `finishRequest` has run. -/
structure QueueState where
  running : Nat
  drainArmed : Bool
  finished : Bool
  completions : Nat
deriving Repr, DecidableEq

/-- The two events whose interleaving the completion logic must survive:
the archive decode finishing, and one queued task completing (the queue
drains when the last one does). -/
inductive BulkEvent where
  | decodeFinish
  | taskDone
deriving Repr, DecidableEq

/-- The finish handler of the tar extractor: if the queue is still busy, arm
`uploadQueue.drain = finishRequest`; otherwise run `finishRequest`
immediately. -/
def finishStep (s : QueueState) : QueueState :=
  if s.running ≠ 0 then { s with finished := true, drainArmed := true }
  else { s with finished := true, completions := s.completions + 1 }

/-- Completion of one queued task: the in-flight count drops by one; when
it reaches zero the drain callback of the queue fires, which runs
`finishRequest` exactly when it was armed. A task cannot complete while
none is outstanding (no-op guard). -/
def taskDoneStep (s : QueueState) : QueueState :=
  if s.running = 0 then s
  else
    let r := s.running - 1
    if r = 0 then
      if s.drainArmed then { s with running := r, completions := s.completions + 1 }
      else { s with running := r }
    else { s with running := r }

/-- Run the completion state machine over an event trace. -/
def runEvents (s : QueueState) : List BulkEvent → QueueState
  | [] => s
  | .decodeFinish :: tr => runEvents (finishStep s) tr
  | .taskDone :: tr => runEvents (taskDoneStep s) tr

/-- One storage operation as observed by its caller: whether it succeeded
and the instant at which its callback fired. -/
structure OpRun where
  ok : Bool
  t : Nat
deriving Repr, DecidableEq

/-- The `async.parallel` combination in `storeStagingEnvelope` (store.js):
both operations are issued at call time; the combined result is a success
iff both succeed; the combined callback fires when the last operation
resolves if both succeed, and at the resolution instant of the first failed operation
otherwise (`async.parallel` invokes the main callback immediately on the
first error). Returns (combined success, callback instant). -/
def storeStagingEnvelopeRun (store index : OpRun) : Bool × Nat :=
  if store.ok && index.ok then (true, max store.t index.t)
  else if !store.ok && !index.ok then (false, min store.t index.t)
  else if !store.ok then (false, store.t)
  else (false, index.t)

/-- Fold of `envelopeStagingWorker` over a queue of task executions, each
given by its two operation runs: counts (`envelopeCount`, `failureCount`)
and the number of tasks whose callback was invoked (the worker calls `cb`
on both branches, so processing always continues). -/
def runWorkerQueue : List (OpRun × OpRun) → Nat × Nat × Nat
  | [] => (0, 0, 0)
  | (s, i) :: rest =>
    let r := runWorkerQueue rest
    if (storeStagingEnvelopeRun s i).1 then (r.1 + 1, r.2.1, r.2.2 + 1)
    else (r.1, r.2.1 + 1, r.2.2 + 1)

/-- Error object surfaced by the Cloud Files client: carries the HTTP
status code. -/
structure CFError where
  statusCode : Nat
deriving Repr, DecidableEq

/-- The Cloud Files container behaviour behind
`connection.client.removeFile`: deleting a present object removes it and
reports no error; deleting an absent object reports a 404 error. Returns
(error, container contents afterwards). -/
def cfRemoveFile (store : List String) (name : String) : Option CFError × List String :=
  if store.contains name then (none, store.filter (· ≠ name))
  else (some ⟨404⟩, store)

/-- `RemoteStorage.prototype.deleteContent`: remove the object named by
the percent-encoded content ID; a 404 from the client is swallowed
(already deleted, so this is fine) and reported as success. -/
def deleteContent (store : List String) (contentID : String) : Option CFError × List String :=
  let r := cfRemoveFile store (encodeURIComponent contentID)
  match r.1 with
  | some e => if e.statusCode = 404 then (none, r.2) else (some e, r.2)
  | none => (none, r.2)

/-- A JavaScript primitive, for fields whose static type is not fixed:
the error classes of the legacy elasticsearch client are keyed by string
status codes, so `err.status` holds a string. -/
inductive JSPrim where
  | num (n : Int)
  | str (s : String)
deriving Repr, DecidableEq

/-- Error object surfaced by the elasticsearch client: carries `status`. -/
structure ESDocError where
  status : JSPrim
deriving Repr, DecidableEq

/-- The search engine behaviour behind `connection.elastic.delete`:
deleting an indexed document removes it; deleting an absent document
reports an error whose `status` is the string "404". -/
def esDeleteDoc (idx : List String) (id : String) : Option ESDocError × List String :=
  if idx.contains id then (none, idx.filter (· ≠ id))
  else (some ⟨.str "404"⟩, idx)

/-- `RemoteStorage.prototype.unindexContent`: delete the document from the
active index; an error whose `status` is (strictly) the string "404" is
swallowed (already gone, disregard) and reported as success. -/
def unindexContent (idx : List String) (contentID : String) : Option ESDocError × List String :=
  let r := esDeleteDoc idx contentID
  match r.1 with
  | some e => if e.status = JSPrim.str "404" then (none, r.2) else (some e, r.2)
  | none => (none, r.2)

/-- Page size of `RemoteStorage.prototype.listContent`. -/
def perPage : Nat := 10000

/-- `RemoteStorage.prototype.listContent`, driven by a consumer that
always asks for the next page. `fetch marker` is the page the Cloud
Files client returns for a `getFiles` call at that marker. The result is
`some (fetches, pages)`: the number of `getFiles` calls performed and the
pages delivered to the per-page callback, in order. The recursion mirrors
`nextPage`/`next`: an empty page is delivered and ends the enumeration
(it doubles as the completion signal); a short non-empty page is
delivered and followed by a final synthetic empty page; a full page is
delivered and the next page is fetched with the last file name as the
marker. `none` models a consumer that never reaches the end within the
given fuel (impossible on a finite store, but the fetch function here is
abstract). -/
def listContentRun (fetch : Option String → List String) :
    Nat → Option String → Option (Nat × List (List String))
  | 0, _ => none
  | fuel + 1, marker =>
    let files := fetch marker
    if files.length = 0 then some (1, [files])
    else if files.length < perPage then some (1, [files, []])
    else
      match listContentRun fetch fuel (some (files.getLastD "")) with
      | none => none
      | some (n, pages) => some (n + 1, files :: pages)

/-- State of the search engine as used by the index lifecycle code:
existing index names, the index names currently holding the
"envelopes_current" alias, and the index names that have received the
envelope mapping. -/
structure ESState where
  indices : List String
  aliased : List String
  mapped : List String
deriving Repr, DecidableEq

/-- One action of an `updateAliases` request body. -/
inductive AliasAction where
  | removeAlias (index aliasName : String)
  | addAlias (index aliasName : String)
deriving Repr, DecidableEq

/-- Requests issued to the search engine by the lifecycle code. -/
inductive ESReq where
  | updateAliases (actions : List AliasAction)
  | getIndices (pattern : String)
  | deleteIndex (name : String)
  | createIndex (name : String)
  | putMapping (name : String)
deriving Repr, DecidableEq

/-- Apply one alias action: removing with index "*" clears the alias from
every generation holding it; adding attaches it to the named index. -/
def applyAliasAction (s : ESState) : AliasAction → ESState
  | .removeAlias idx al =>
    if al = "envelopes_current" then
      if idx = "*" then { s with aliased := [] }
      else { s with aliased := s.aliased.filter (· ≠ idx) }
    else s
  | .addAlias idx al =>
    if al = "envelopes_current" then
      { s with aliased := idx :: s.aliased.filter (· ≠ idx) }
    else s

/-- One atomic `indices.updateAliases` request: all actions apply in one
step; adding an alias to a non-existent index fails the whole request. -/
def updateAliasesReq (s : ESState) (actions : List AliasAction) : Option ESState :=
  if actions.all (fun a => match a with
      | .addAlias idx _ => s.indices.contains idx
      | .removeAlias _ _ => true) then
    some (actions.foldl applyAliasAction s)
  else none

/-- Index-name pattern "envelopes*" used by the `indices.get` call of
`makeIndexActive`. -/
def matchesEnvelopes (n : String) : Bool :=
  "envelopes".data.isPrefixOf n.data

/-- Deleting one index removes it, its alias attachment and its mapping. -/
def deleteIndexState (s : ESState) (n : String) : ESState :=
  ⟨s.indices.filter (· ≠ n), s.aliased.filter (· ≠ n), s.mapped.filter (· ≠ n)⟩

/-- `RemoteStorage.prototype.makeIndexActive`: one atomic `updateAliases`
request removes the "envelopes_current" alias from every index and adds
it to `indexName`; on its success the indices matching "envelopes*" are
listed and every one other than `indexName` is deleted. Returns the final
state and the requests issued, or `none` when the alias request failed. -/
def makeIndexActive (indexName : String) (s : ESState) : Option (ESState × List ESReq) :=
  match updateAliasesReq s [AliasAction.removeAlias "*" "envelopes_current",
      AliasAction.addAlias indexName "envelopes_current"] with
  | none => none
  | some s1 =>
    some (((s1.indices.filter matchesEnvelopes).filter (fun n => n ≠ indexName)).foldl
        deleteIndexState s1,
      [ESReq.updateAliases [AliasAction.removeAlias "*" "envelopes_current",
         AliasAction.addAlias indexName "envelopes_current"],
       ESReq.getIndices "envelopes*"]
        ++ ((s1.indices.filter matchesEnvelopes).filter (fun n => n ≠ indexName)).map
            ESReq.deleteIndex)

/-- `RemoteStorage.prototype.createNewIndex`: create the index (an error
when it already exists) and put the envelope mapping on it. -/
def createNewIndex (name : String) (s : ESState) : Option (ESState × List ESReq) :=
  if s.indices.contains name then none
  else some ({ s with indices := name :: s.indices, mapped := name :: s.mapped },
    [ESReq.createIndex name, ESReq.putMapping name])

/-- `RemoteStorage.prototype.setup` after the connection is up: attempt to
create the "latch" index with `ignore: 400`. If it already exists the
client reports status 400, which is treated as "another content service
is on it": the callback fires with no error and nothing else happens.
Otherwise the latch index is created, a generation named by the current
epoch milliseconds is created with its mapping, and it is promoted with
`makeIndexActive`. -/
def remoteSetup (now : Nat) (s : ESState) : Option (ESState × List ESReq) :=
  if s.indices.contains "latch" then some (s, [ESReq.createIndex "latch"])
  else
    match createNewIndex ("envelopes_" ++ toString now)
        { s with indices := "latch" :: s.indices } with
    | none => none
    | some (s1, reqs1) =>
      match makeIndexActive ("envelopes_" ++ toString now) s1 with
      | none => none
      | some (s2, reqs2) =>
        some (s2, ESReq.createIndex "latch" :: (reqs1 ++ reqs2))

/-- Number of decode-finish events in a trace. -/
def countF : List BulkEvent → Nat
  | [] => 0
  | .decodeFinish :: tr => countF tr + 1
  | .taskDone :: tr => countF tr

/-- Number of task-completion events in a trace. -/
def countT : List BulkEvent → Nat
  | [] => 0
  | .decodeFinish :: tr => countT tr
  | .taskDone :: tr => countT tr + 1

def c2World : World :=
  ⟨fun _ => (true, true), fun _ => ["x/a", "x/q"], false⟩

def c2Entries : List Entry :=
  [⟨.file, "metadata/config.json", .json (.obj [("contentIDBase", .str "x/")])⟩,
   ⟨.file, "x%2Fa.json", .malformed⟩]

def c2State : BulkState := ⟨.str "x/", ["x/a"], 1, []⟩

/-- The accepted count stated declaratively, following the spec wording:
the number of queued tasks whose document-store write and search-index
write both succeed. -/
def acceptedSpec (outcome : Nat → Bool × Bool) (start len : Nat) : Nat :=
  (List.range len).countP
    (fun j => storeStagingEnvelopeOk (outcome (start + j)).1 (outcome (start + j)).2)

/-- C4 counterexample world. -/
def c4World : World := ⟨fun _ => (true, true), fun _ => [], false⟩

/-- A request state with a captured (truthy) contentIDBase, used to
witness that reconciliation reaches the undefined `removeEnvelopes`
binding and crashes. -/
def c4CrashState : BulkState := ⟨.str "x/", [], 0, []⟩

/-- The archive producing `c4CrashState`: only a config entry. -/
def c4CrashEntries : List Entry :=
  [⟨.file, "metadata/config.json", .json (.obj [("contentIDBase", .str "x/")])⟩]

/-- C4 witness world run: one well-formed record, all writes succeed. -/
def c4Entries : List Entry := [⟨.file, "a.json", .json (.obj [])⟩]

/-- The request state after processing the C4 witness archive. -/
def c4State : BulkState := ⟨.null, ["a"], 0, [("a", .obj [])]⟩

/-- C5 world: one previously stored envelope whose content ID collides
with an `Object.prototype` property name. -/
def c5World : World := ⟨fun _ => (true, true), fun _ => ["constructor"], false⟩

/-- C5 archive: only a config entry capturing contentIDBase "c". -/
def c5Entries : List Entry :=
  [⟨.file, "metadata/config.json", .json (.obj [("contentIDBase", .str "c")])⟩]

/-- State after processing the C5 archive: base captured, keep set empty. -/
def c5State : BulkState := ⟨.str "c", [], 0, []⟩

/-- The generation names garbage-collected by `makeIndexActive`: every
index matching the "envelopes*" pattern other than the new one. -/
def gcNames (s : ESState) (name : String) : List String :=
  (s.indices.filter matchesEnvelopes).filter (fun n => n ≠ name)

/-- Backing store of the C8 witness: exactly `perPage` stored names. -/
def c8Items : List String := (List.range perPage).map (fun i => toString i)

/-- Page function of the C8 witness: the full page at the start, the
empty page at any marker. -/
def c8Fetch : Option String → List String
  | none => c8Items
  | some _ => []

theorem runEvents_completions (tr : List BulkEvent) : ∀ (s : QueueState),
    (s.finished = false → countF tr = 1 ∧ s.drainArmed = false ∧ s.completions = 0) →
    (s.finished = true → countF tr = 0 ∧
        s.completions + (if s.drainArmed = true ∧ s.running ≠ 0 then 1 else 0) = 1) →
    s.running ≤ countT tr →
    (runEvents s tr).completions = 1 := by
  induction tr with
  | nil =>
    intro s hunf hfin hrun
    cases hf : s.finished with
    | false =>
      have h := (hunf hf).1
      simp [countF] at h
    | true =>
      have h := (hfin hf).2
      have hr0 : s.running = 0 := by simpa [countT] using hrun
      rw [if_neg (by simp [hr0])] at h
      simpa [runEvents] using h
  | cons e tr ih =>
    intro s hunf hfin hrun
    cases e with
    | decodeFinish =>
      cases hf : s.finished with
      | true =>
        have h := (hfin hf).1
        simp [countF] at h
      | false =>
        obtain ⟨h1, harm, hcomp⟩ := hunf hf
        simp only [countF] at h1
        simp only [countT] at hrun
        show (runEvents (finishStep s) tr).completions = 1
        by_cases hr : s.running = 0
        · apply ih
          · intro hcontra
            simp [finishStep, hr] at hcontra
          · intro _
            refine ⟨by omega, ?_⟩
            simp [finishStep, hr, hcomp, harm]
          · simp [finishStep, hr]
        · apply ih
          · intro hcontra
            simp [finishStep, hr] at hcontra
          · intro _
            refine ⟨by omega, ?_⟩
            simp [finishStep, hr, hcomp]
          · simpa [finishStep, hr] using hrun
    | taskDone =>
      simp only [countF] at hunf hfin
      simp only [countT] at hrun
      show (runEvents (taskDoneStep s) tr).completions = 1
      by_cases hr : s.running = 0
      · apply ih
        · intro hcontra
          simp only [taskDoneStep, if_pos hr] at hcontra ⊢
          exact hunf hcontra
        · intro hfin'
          simp only [taskDoneStep, if_pos hr] at hfin' ⊢
          exact hfin hfin'
        · simp [taskDoneStep, hr]
      · -- s.running = n + 1
        by_cases hr1 : s.running - 1 = 0
        · by_cases harm : s.drainArmed
          · -- drain fires
            cases hf : s.finished with
            | false =>
              obtain ⟨_, harm', _⟩ := hunf hf
              simp [harm'] at harm
            | true =>
              obtain ⟨hc0, hsum⟩ := hfin hf
              rw [if_pos ⟨by simp [harm], hr⟩] at hsum
              apply ih
              · intro hcontra
                simp [taskDoneStep, hr, hr1, harm, hf] at hcontra
              · intro _
                refine ⟨hc0, ?_⟩
                have : s.completions = 0 := by omega
                simp [taskDoneStep, hr, hr1, harm, this]
              · simp [taskDoneStep, hr, hr1, harm]
          · -- drain not armed: nothing fires
            apply ih
            · intro hcontra
              simp [taskDoneStep, hr, hr1, harm] at hcontra ⊢
              exact ⟨(hunf hcontra).1, (hunf hcontra).2.2⟩
            · intro hfin'
              simp [taskDoneStep, hr, hr1, harm] at hfin'
              obtain ⟨hc0, hsum⟩ := hfin hfin'
              refine ⟨hc0, ?_⟩
              rw [if_neg (by simp [harm])] at hsum
              simp [taskDoneStep, hr, hr1, harm]
              omega
            · simp [taskDoneStep, hr, hr1, harm]
        · -- still running afterwards
          apply ih
          · intro hcontra
            simp [taskDoneStep, hr, hr1] at hcontra ⊢
            exact hunf hcontra
          · intro hfin'
            simp [taskDoneStep, hr, hr1] at hfin'
            obtain ⟨hc0, hsum⟩ := hfin hfin'
            refine ⟨hc0, ?_⟩
            by_cases harm : s.drainArmed
            · rw [if_pos ⟨by simp [harm], hr⟩] at hsum
              simp [taskDoneStep, hr, hr1, harm]
              omega
            · rw [if_neg (by simp [harm])] at hsum
              simp [taskDoneStep, hr, hr1, harm]
              omega
          · simp [taskDoneStep, hr, hr1]
            omega

theorem dictTruthy_dictSet_self (d : List String) (k : String) :
    dictTruthy (dictSet d k) k = true := by
  unfold dictSet dictTruthy
  by_cases h : k = "__proto__"
  · simp [h, objectProtoNames]
  · simp [h]

theorem dictTruthy_dictSet_mono (d : List String) (k k' : String)
    (h : dictTruthy d k = true) : dictTruthy (dictSet d k') k = true := by
  unfold dictSet
  by_cases hp : k' = "__proto__"
  · simpa [hp] using h
  · unfold dictTruthy at h ⊢
    simp only [hp, if_false]
    rcases Bool.or_eq_true_iff.mp h with h1 | h2
    · simp only [List.contains_cons, h1, Bool.or_true, Bool.true_or]
    · simp only [h2, Bool.or_true]

theorem dictTruthy_foldl_dictSet (xs : List JVal) : ∀ (d : List String) (k : String),
    dictTruthy d k = true →
    dictTruthy (xs.foldl (fun d x => dictSet d (jsToString x)) d) k = true := by
  induction xs with
  | nil => intro d k h; simpa using h
  | cons x xs ih =>
    intro d k h
    exact ih _ _ (dictTruthy_dictSet_mono d k (jsToString x) h)

theorem processEntry_keep_mono (st : BulkState) (e : Entry) (st' : BulkState)
    (hstep : processEntry st e = some st') (k : String)
    (h : dictTruthy st.toKeep k = true) : dictTruthy st'.toKeep k = true := by
  unfold processEntry at hstep
  split at hstep
  · simp at hstep; subst hstep; exact h
  · split at hstep
    · split at hstep
      · simp at hstep
        subst hstep
        unfold handleConfigEntry
        split
        · exact h
        · split
          · exact h
          · split
            · exact h
            · exact h
      · split at hstep
        · simp at hstep
          subst hstep
          unfold handleKeepEntry
          split
          · exact h
          · split
            · exact h
            · split
              · split
                · exact dictTruthy_foldl_dictSet _ _ _ h
                · exact h
              · exact h
        · simp at hstep; subst hstep; exact h
    · split at hstep
      · unfold handleStagingEnvelopeEntry at hstep
        split at hstep
        · exact absurd hstep (by simp)
        · split at hstep
          · simp at hstep
            subst hstep
            exact dictTruthy_dictSet_mono _ _ _ h
          · simp at hstep
            subst hstep
            exact dictTruthy_dictSet_mono _ _ _ h
      · simp at hstep; subst hstep; exact h

theorem processEntries_keep_mono (es : List Entry) : ∀ (st0 st : BulkState) (k : String),
    processEntries st0 es = some st → dictTruthy st0.toKeep k = true →
    dictTruthy st.toKeep k = true := by
  induction es with
  | nil => intro st0 st k hrun h; simp [processEntries] at hrun; subst hrun; exact h
  | cons e es ih =>
    intro st0 st k hrun h
    unfold processEntries at hrun
    rw [Option.bind_eq_bind] at hrun
    rcases Option.bind_eq_some.mp hrun with ⟨st1, hstep, hrest⟩
    exact ih st1 st k hrest (processEntry_keep_mono st0 e st1 hstep k h)

theorem processEntry_content_adds_keep (st : BulkState) (e : Entry) (st' : BulkState)
    (hc : isContentEntry e = true) (hstep : processEntry st e = some st')
    (id : String) (hid : decodeURIComponent (basenameExtOf e.path ".json") = some id) :
    dictTruthy st'.toKeep id = true := by
  unfold isContentEntry at hc
  simp only [Bool.and_eq_true, decide_eq_true_eq] at hc
  obtain ⟨⟨hkind, hdname⟩, hjson⟩ := hc
  unfold processEntry at hstep
  rw [if_neg (by simp [hkind])] at hstep
  rw [if_neg (by simpa using hdname)] at hstep
  rw [if_pos hjson] at hstep
  unfold handleStagingEnvelopeEntry at hstep
  rw [hid] at hstep
  cases hb : e.body with
  | malformed =>
    rw [hb] at hstep
    simp at hstep
    subst hstep
    exact dictTruthy_dictSet_self _ _
  | json v =>
    rw [hb] at hstep
    simp at hstep
    subst hstep
    exact dictTruthy_dictSet_self _ _

theorem keep_not_deleted (w : World) (st : BulkState) (id : String)
    (h : dictTruthy st.toKeep id = true) :
    id ∉ (removeDeletedStagingContent w st).deletedIDs := by
  unfold removeDeletedStagingContent
  split
  · simp
  · split
    · simp
    · intro hmem
      simp only at hmem
      have := List.of_mem_filter hmem
      simp [h] at this

theorem processEntries_content_keep (es : List Entry) : ∀ (st0 st : BulkState),
    processEntries st0 es = some st → ∀ e ∈ es, isContentEntry e = true →
    ∀ id, decodeURIComponent (basenameExtOf e.path ".json") = some id →
    dictTruthy st.toKeep id = true := by
  induction es with
  | nil => intro st0 st hrun e he; simp at he
  | cons e' es ih =>
    intro st0 st hrun e he hc id hid
    unfold processEntries at hrun
    rw [Option.bind_eq_bind] at hrun
    rcases Option.bind_eq_some.mp hrun with ⟨st1, hstep, hrest⟩
    rcases List.mem_cons.mp he with heq | hmem
    · subst heq
      exact processEntries_keep_mono es st1 st id hrest
        (processEntry_content_adds_keep st0 e st1 hc hstep id hid)
    · exact ih st1 st hrest e hmem hc id hid

/-- C2: every content-record entry of the archive has its percent-decoded
content ID added to the keep set before its body is parsed, so an ID
present in the batch is never among the IDs reconciliation deletes, no
matter whether the JSON parse of the entry or its storage succeeded. -/
theorem batch_ids_never_deleted (w : World) (es : List Entry) (st : BulkState)
    (hrun : processEntries initBulkState es = some st)
    (e : Entry) (he : e ∈ es) (hc : isContentEntry e = true)
    (id : String) (hid : decodeURIComponent (basenameExtOf e.path ".json") = some id) :
    id ∉ (removeDeletedStagingContent w st).deletedIDs :=
  keep_not_deleted w st id
    (processEntries_content_keep es initBulkState st hrun e he hc id hid)

theorem batch_ids_never_deleted_witness :
    "x/a" ∉ (removeDeletedStagingContent c2World c2State).deletedIDs :=
  batch_ids_never_deleted c2World c2Entries c2State (by rfl)
    ⟨.file, "x%2Fa.json", .malformed⟩ (List.Mem.tail _ (List.Mem.head _))
    (by decide) "x/a" (by decide)

theorem runWorkerQueue_processed (runs : List (OpRun × OpRun)) :
    (runWorkerQueue runs).2.2 = runs.length := by
  induction runs with
  | nil => rfl
  | cons p rest ih =>
    unfold runWorkerQueue
    split <;> simpa using ih

theorem runWorkerQueue_accepted (runs : List (OpRun × OpRun)) :
    (runWorkerQueue runs).1 =
      runs.countP (fun p => (storeStagingEnvelopeRun p.1 p.2).1) := by
  induction runs with
  | nil => rfl
  | cons p rest ih =>
    unfold runWorkerQueue
    rw [List.countP_cons]
    split <;> rename_i hp
    · simp [hp, ih]
    · simp [hp, ih]

theorem runWorkerQueue_total (runs : List (OpRun × OpRun)) :
    (runWorkerQueue runs).1 + (runWorkerQueue runs).2.1 = runs.length := by
  induction runs with
  | nil => rfl
  | cons p rest ih =>
    unfold runWorkerQueue
    split <;> simp <;> omega

/-- C3 counterexample: when the document-store write fails at instant 0
while the search-index write resolves only at instant 5, the
`async.parallel` callback of `storeStagingEnvelope` fires at instant 0,
before both operations have resolved — the claim that the task's outcome
is reported only after both operations resolve is false. -/
theorem store_reported_before_both_resolve :
    ¬ max 0 5 ≤ (storeStagingEnvelopeRun ⟨false, 0⟩ ⟨true, 5⟩).2 := by decide

/-- C3 amended: both writes are issued concurrently by `async.parallel`;
the task is accepted iff both succeed; when both succeed the outcome is
reported only after both resolve (at the later resolution); on a failure
the outcome is reported at the resolution instant of the first failed operation,
possibly before the other resolves; a failure increments the failure
counter and the worker continues, so every queued task is processed. -/
theorem store_and_index_task_outcome (s i : OpRun) (runs : List (OpRun × OpRun)) :
    (storeStagingEnvelopeRun s i).1 = (s.ok && i.ok) ∧
    (s.ok = true → i.ok = true → (storeStagingEnvelopeRun s i).2 = max s.t i.t) ∧
    (runWorkerQueue runs).2.2 = runs.length ∧
    (runWorkerQueue runs).1 =
      runs.countP (fun p => (storeStagingEnvelopeRun p.1 p.2).1) ∧
    (runWorkerQueue runs).1 + (runWorkerQueue runs).2.1 = runs.length := by
  refine ⟨?_, ?_, runWorkerQueue_processed runs, runWorkerQueue_accepted runs,
    runWorkerQueue_total runs⟩
  · unfold storeStagingEnvelopeRun
    cases hs : s.ok <;> cases hi : i.ok <;> simp [hs, hi]
  · intro hs hi
    unfold storeStagingEnvelopeRun
    simp [hs, hi]

/-- Witness for the amended C3 theorem at concrete task executions. -/
theorem store_and_index_task_outcome_witness :
    (storeStagingEnvelopeRun ⟨true, 3⟩ ⟨true, 7⟩).2 = max 3 7 ∧
    (runWorkerQueue [(⟨true, 3⟩, ⟨true, 7⟩), (⟨false, 1⟩, ⟨true, 9⟩)]).2.2 = 2 :=
  ⟨(store_and_index_task_outcome ⟨true, 3⟩ ⟨true, 7⟩ []).2.1 rfl rfl,
   (store_and_index_task_outcome ⟨true, 3⟩ ⟨true, 7⟩
     [(⟨true, 3⟩, ⟨true, 7⟩), (⟨false, 1⟩, ⟨true, 9⟩)]).2.2.1⟩

/-- C10: removing an empty list of content IDs issues no storage
operation at all (no single or bulk delete, no single or bulk unindex),
invokes the callback with no error, and leaves the stored state
unchanged. -/
theorem remove_empty_is_noop (opFails : RemovalOp → Bool) (s : StagingStore) :
    removeStagingEnvelopes [] = [] ∧
    removeStagingEnvelopesErr opFails [] = false ∧
    applyRemovalOps s (removeStagingEnvelopes []) = s :=
  ⟨rfl, rfl, rfl⟩

/-- C9: a 404 from the backing store on a document delete or an index
delete is reported as success, so deletion is idempotent: deleting any
content ID twice reports success the second time, both on the document
store and on the search index. -/
theorem delete_not_found_is_success (store idx : List String) (id : String) :
    (store.contains (encodeURIComponent id) = false →
      (deleteContent store id).1 = none) ∧
    (idx.contains id = false → (unindexContent idx id).1 = none) ∧
    (deleteContent (deleteContent store id).2 id).1 = none ∧
    (unindexContent (unindexContent idx id).2 id).1 = none := by
  refine ⟨?_, ?_, ?_, ?_⟩
  · intro h
    have hmem : encodeURIComponent id ∉ store := by simpa using h
    simp [deleteContent, cfRemoveFile, hmem]
  · intro h
    have hmem : id ∉ idx := by simpa using h
    simp [unindexContent, esDeleteDoc, hmem]
  · by_cases hmem : encodeURIComponent id ∈ store
    · simp [deleteContent, cfRemoveFile, hmem]
    · simp [deleteContent, cfRemoveFile, hmem]
  · by_cases hmem : id ∈ idx
    · simp [unindexContent, esDeleteDoc, hmem]
    · simp [unindexContent, esDeleteDoc, hmem]

/-- Witness for the C9 theorem: a store holding the ID and an index
holding it; also the not-found branches at an absent ID. -/
theorem delete_not_found_is_success_witness :
    ((["z"] : List String).contains (encodeURIComponent "a") = false →
      (deleteContent ["z"] "a").1 = none) ∧
    (deleteContent (deleteContent ["a"] "a").2 "a").1 = none :=
  ⟨(delete_not_found_is_success ["z"] [] "a").1,
   (delete_not_found_is_success ["a"] ["a"] "a").2.2.1⟩

/-- C8: over a backing store answering the first page with exactly
`perPage` items and the page after them with zero items, `listContent`
performs exactly two page fetches, delivers the full page and then the
final empty page (the completion signal), and thereby enumerates every
item exactly once. -/
theorem listContent_two_pages (fetch : Option String → List String)
    (items : List String) (fuel : Nat)
    (h1 : fetch none = items) (h2 : items.length = perPage)
    (h3 : fetch (some (items.getLastD "")) = []) (hfuel : 2 ≤ fuel) :
    listContentRun fetch fuel none = some (2, [items, []]) ∧
    ([items, []] : List (List String)).flatten = items := by
  obtain ⟨f, rfl⟩ : ∃ f, fuel = f + 2 := ⟨fuel - 2, by omega⟩
  constructor
  · show listContentRun fetch (f + 1 + 1) none = some (2, [items, []])
    unfold listContentRun
    rw [h1]
    rw [if_neg (by simp [h2, perPage]), if_neg (by simp [h2])]
    unfold listContentRun
    rw [h3]
    simp [perPage]
  · simp

theorem acceptedSpec_succ (outcome : Nat → Bool × Bool) (i n : Nat) :
    acceptedSpec outcome i (n + 1) =
      acceptedSpec outcome (i + 1) n +
        (if storeStagingEnvelopeOk (outcome i).1 (outcome i).2 then 1 else 0) := by
  unfold acceptedSpec
  rw [List.range_succ_eq_map, List.countP_cons, List.countP_map]
  congr 1
  apply List.countP_congr
  intro j _
  simp only [Function.comp]
  rw [show i + (j + 1) = i + 1 + j from by omega]

theorem runTasks_counts (outcome : Nat → Bool × Bool) (ts : List (String × JVal)) :
    ∀ i, (runTasks outcome i ts).1 = acceptedSpec outcome i ts.length ∧
      (runTasks outcome i ts).1 + (runTasks outcome i ts).2 = ts.length := by
  induction ts with
  | nil => intro i; exact ⟨rfl, rfl⟩
  | cons t ts ih =>
    intro i
    obtain ⟨ih1, ih2⟩ := ih (i + 1)
    show ((runTasks outcome i (t :: ts)).1 = _) ∧ _
    by_cases hok : storeStagingEnvelopeOk (outcome i).1 (outcome i).2 = true
    · simp only [runTasks, hok, if_true, List.length_cons, acceptedSpec_succ]
      exact ⟨by rw [ih1], by omega⟩
    · have hok' : storeStagingEnvelopeOk (outcome i).1 (outcome i).2 = false :=
        Bool.eq_false_iff.mpr hok
      simp only [runTasks, hok', Bool.false_eq_true, if_false, List.length_cons,
        acceptedSpec_succ]
      exact ⟨by omega, by omega⟩

/-- C4 counterexample: a request body that is not valid gzip never
reaches the tar extractor's error handler — the gunzip stream in
`req.pipe(zlib.createGunzip()).pipe(extract)` has no error listener and
stream piping does not forward errors, so the handler raises an
unhandled error event instead of answering 400. -/
theorem malformed_gzip_not_answered_400 :
    bulkHandler c4World Archive.corruptGzip = BulkOutcome.crashed ∧
    bulkHandler c4World Archive.corruptGzip ≠ BulkOutcome.malformedArchive 400 :=
  ⟨rfl, by decide⟩

theorem recon_outcome_or_zero (w : World) (st : BulkState) :
    (removeDeletedStagingContent w st).outcome = ReconOutcome.crashedTypeError ∨
    (removeDeletedStagingContent w st).deletionCount = 0 := by
  unfold removeDeletedStagingContent
  split
  · right; rfl
  · split
    · right; rfl
    · left; rfl

theorem recon_crashes_on_captured_base (w : World) (st : BulkState)
    (hb : jsTruthy st.contentIDBase = true) (hl : w.listErr = false) :
    (removeDeletedStagingContent w st).outcome = ReconOutcome.crashedTypeError := by
  unfold removeDeletedStagingContent
  rw [if_neg (by simp [hb]), if_neg (by simp [hl])]

/-- C4 amended: for a bulk upload that reaches the completion report, the
status of the report is 200 exactly when the failure counter is 0 and 500
otherwise, and its accepted count equals the number of queued records
whose document-store and search-index writes both succeeded; an archive
whose tar content is malformed is answered with status 400 and no
completion report (a body that fails gzip inflation instead crashes the
handler, see the counterexample). Moreover every completion report has
deleted = 0: an upload that captures a contentIDBase and lists
successfully reaches the call to the undefined `removeEnvelopes` binding,
throws a TypeError and never reaches `reportCompletion`. -/
theorem completion_report_shape (w : World) (es : List Entry) (st : BulkState)
    (f : Bool) (r : CompletionReport)
    (hst : processEntries initBulkState es = some st)
    (hout : bulkHandler w (Archive.entries es) = BulkOutcome.completed f r) :
    (r.status = 200 ↔ r.failed = 0) ∧ (r.status = 200 ∨ r.status = 500) ∧
    r.accepted = acceptedSpec w.outcome 0 st.tasks.length ∧
    r.failed = st.failureCount + (st.tasks.length - r.accepted) ∧
    r.deleted = 0 ∧
    bulkHandler w Archive.corruptTar = BulkOutcome.malformedArchive 400 ∧
    (∀ (w2 : World) (es2 : List Entry) (st2 : BulkState),
      processEntries initBulkState es2 = some st2 →
      jsTruthy st2.contentIDBase = true → w2.listErr = false →
      bulkHandler w2 (Archive.entries es2) = BulkOutcome.crashed) := by
  have hcrash : ∀ (w2 : World) (es2 : List Entry) (st2 : BulkState),
      processEntries initBulkState es2 = some st2 →
      jsTruthy st2.contentIDBase = true → w2.listErr = false →
      bulkHandler w2 (Archive.entries es2) = BulkOutcome.crashed := by
    intro w2 es2 st2 hst2 hb hl
    unfold bulkHandler
    dsimp only
    rw [hst2]
    dsimp only
    rw [recon_crashes_on_captured_base w2 st2 hb hl]
  unfold bulkHandler at hout
  dsimp only at hout
  rw [hst] at hout
  dsimp only at hout
  obtain ⟨h1, h2⟩ := runTasks_counts w.outcome st.tasks 0
  cases ho : (removeDeletedStagingContent w st).outcome with
  | crashedTypeError =>
    rw [ho] at hout
    exact absurd hout (by simp)
  | skipped =>
    rw [ho] at hout
    dsimp only at hout
    obtain ⟨hf, hr⟩ := BulkOutcome.completed.inj hout
    subst hr
    have hz0 : (removeDeletedStagingContent w st).deletionCount = 0 := by
      rcases recon_outcome_or_zero w st with hc | hz0
      · rw [ho] at hc; exact absurd hc (by simp)
      · exact hz0
    refine ⟨?_, ?_, h1, ?_, hz0, rfl, hcrash⟩
    · by_cases hz : st.failureCount + (runTasks w.outcome 0 st.tasks).2 = 0 <;>
        simp [reportCompletionOf, hz]
    · by_cases hz : st.failureCount + (runTasks w.outcome 0 st.tasks).2 = 0 <;>
        simp [reportCompletionOf, hz]
    · simp only [reportCompletionOf]
      omega
  | listFailed =>
    rw [ho] at hout
    dsimp only at hout
    obtain ⟨hf, hr⟩ := BulkOutcome.completed.inj hout
    subst hr
    have hz0 : (removeDeletedStagingContent w st).deletionCount = 0 := by
      rcases recon_outcome_or_zero w st with hc | hz0
      · rw [ho] at hc; exact absurd hc (by simp)
      · exact hz0
    refine ⟨?_, ?_, h1, ?_, hz0, rfl, hcrash⟩
    · by_cases hz : st.failureCount + (runTasks w.outcome 0 st.tasks).2 = 0 <;>
        simp [reportCompletionOf, hz]
    · by_cases hz : st.failureCount + (runTasks w.outcome 0 st.tasks).2 = 0 <;>
        simp [reportCompletionOf, hz]
    · simp only [reportCompletionOf]
      omega

/-- Witness for the amended C4 theorem at a concrete one-record upload,
including the concrete crash of a config-captured upload. -/
theorem completion_report_shape_witness :
    ((⟨1, 0, 0, 200⟩ : CompletionReport).status = 200 ↔
      (⟨1, 0, 0, 200⟩ : CompletionReport).failed = 0) ∧
    (⟨1, 0, 0, 200⟩ : CompletionReport).accepted =
      acceptedSpec c4World.outcome 0 c4State.tasks.length ∧
    (⟨1, 0, 0, 200⟩ : CompletionReport).deleted = 0 ∧
    bulkHandler c4World Archive.corruptTar = BulkOutcome.malformedArchive 400 ∧
    bulkHandler c4World (Archive.entries c4CrashEntries) = BulkOutcome.crashed :=
  ⟨(completion_report_shape c4World c4Entries c4State false ⟨1, 0, 0, 200⟩ rfl rfl).1,
   (completion_report_shape c4World c4Entries c4State false ⟨1, 0, 0, 200⟩ rfl rfl).2.2.1,
   (completion_report_shape c4World c4Entries c4State false ⟨1, 0, 0, 200⟩ rfl rfl).2.2.2.2.1,
   (completion_report_shape c4World c4Entries c4State false ⟨1, 0, 0, 200⟩ rfl rfl).2.2.2.2.2.1,
   (completion_report_shape c4World c4Entries c4State false ⟨1, 0, 0, 200⟩ rfl
      rfl).2.2.2.2.2.2 c4World c4CrashEntries c4CrashState rfl rfl rfl⟩

/-- C5 failing-input evaluation: with contentIDBase "c" captured, an
empty keep set and the single existing ID "constructor", the code
deletes nothing (`toDelete = []`, `deletionCount = 0`) although the
listed existing IDs minus the keep set is exactly ["constructor"]: the
lookup `toKeep['constructor']` finds the inherited
`Object.prototype.constructor` and is truthy, so the filter drops the
ID. -/
theorem reconciliation_skips_proto_named_ids :
    processEntries initBulkState c5Entries = some c5State ∧
    c5World.listEnv c5State.contentIDBase = ["constructor"] ∧
    c5State.toKeep = [] ∧
    (removeDeletedStagingContent c5World c5State).deletedIDs = [] ∧
    (removeDeletedStagingContent c5World c5State).deletionCount = 0 ∧
    dictTruthy c5State.toKeep "constructor" = true :=
  ⟨rfl, rfl, rfl, by decide, by decide, by decide⟩

theorem foldl_deleteIndex (names : List String) : ∀ s : ESState,
    names.foldl deleteIndexState s =
      ⟨s.indices.filter (fun x => !names.contains x),
       s.aliased.filter (fun x => !names.contains x),
       s.mapped.filter (fun x => !names.contains x)⟩ := by
  induction names with
  | nil =>
    intro s
    cases s
    simp
  | cons n ns ih =>
    intro s
    rw [List.foldl_cons, ih]
    unfold deleteIndexState
    congr 1 <;>
    · rw [List.filter_filter]
      apply List.filter_congr
      intro x _
      simp [List.contains_cons, Bool.not_or, decide_not, Bool.and_comm]

theorem updateAliases_promote (s : ESState) (name : String) (hmem : name ∈ s.indices) :
    updateAliasesReq s [AliasAction.removeAlias "*" "envelopes_current",
      AliasAction.addAlias name "envelopes_current"] =
      some ⟨s.indices, [name], s.mapped⟩ := by
  unfold updateAliasesReq
  have hc : s.indices.contains name = true := by simpa using hmem
  simp [List.all_cons, hc, applyAliasAction]
  exact hmem

theorem not_mem_gcNames_self (s : ESState) (name : String) : name ∉ gcNames s name := by
  intro h
  have := List.of_mem_filter h
  simp at this

theorem gcNames_not_contains_self (s : ESState) (name : String) :
    (gcNames s name).contains name = false := by
  rw [Bool.eq_false_iff]
  intro hc
  exact not_mem_gcNames_self s name (by simpa using hc)

theorem makeIndexActive_promotes (s : ESState) (name : String) (hmem : name ∈ s.indices) :
    makeIndexActive name s = some
      (⟨s.indices.filter (fun x => !(gcNames s name).contains x),
        [name].filter (fun x => !(gcNames s name).contains x),
        s.mapped.filter (fun x => !(gcNames s name).contains x)⟩,
       [ESReq.updateAliases [.removeAlias "*" "envelopes_current",
          .addAlias name "envelopes_current"], ESReq.getIndices "envelopes*"]
        ++ (gcNames s name).map ESReq.deleteIndex) := by
  unfold makeIndexActive
  rw [updateAliases_promote s name hmem]
  dsimp only
  rw [foldl_deleteIndex]
  rfl

/-- C6: `makeIndexActive` issues exactly one alias request, a single
multi-action body removing the active alias from every index and adding
it to the new generation; after it succeeds, garbage collection deletes
every generation except the new one, so the new generation is the only
index matching "envelopes*" and it is the sole holder of the active
alias. -/
theorem index_promotion_atomic_and_gc (s : ESState) (name : String)
    (s' : ESState) (reqs : List ESReq)
    (hmem : name ∈ s.indices) (hpat : matchesEnvelopes name = true)
    (hnd : s.indices.Nodup)
    (hact : makeIndexActive name s = some (s', reqs)) :
    reqs.countP (fun r => match r with | .updateAliases _ => true | _ => false) = 1 ∧
    ESReq.updateAliases [.removeAlias "*" "envelopes_current",
      .addAlias name "envelopes_current"] ∈ reqs ∧
    s'.indices.filter matchesEnvelopes = [name] ∧
    s'.aliased = [name] := by
  rw [makeIndexActive_promotes s name hmem] at hact
  simp only [Option.some.injEq, Prod.mk.injEq] at hact
  obtain ⟨hs, hr⟩ := hact
  subst hs
  subst hr
  refine ⟨?_, ?_, ?_, ?_⟩
  · rw [List.countP_append, List.countP_map]
    simp [List.countP_cons]
  · simp
  · show (List.filter _ _).filter matchesEnvelopes = [name]
    rw [List.filter_filter]
    have hstep : ∀ x ∈ s.indices,
        (matchesEnvelopes x && !(gcNames s name).contains x) = (x == name) := by
      intro x hx
      by_cases hxn : x = name
      · subst hxn
        simp [hpat]
        exact not_mem_gcNames_self s x
      · have hbeq : (x == name) = false := by simp [hxn]
        rw [hbeq]
        by_cases hm : matchesEnvelopes x = true
        · have hmemgc : x ∈ gcNames s name :=
            List.mem_filter.mpr ⟨List.mem_filter.mpr ⟨hx, hm⟩, by simp [hxn]⟩
          have hcont : (gcNames s name).contains x = true := by simpa using hmemgc
          simp [hm, hcont]
          exact hmemgc
        · simp [Bool.eq_false_iff.mpr hm]
    rw [List.filter_congr hstep]
    rw [List.filter_beq]
    rw [List.count_eq_one_of_mem hnd hmem]
    rfl
  · simp
    exact not_mem_gcNames_self s name

/-- Witness for the C6 theorem at a concrete cluster state with two
generations. -/
theorem index_promotion_atomic_and_gc_witness :
    ([ESReq.updateAliases [.removeAlias "*" "envelopes_current",
        .addAlias "envelopes_2" "envelopes_current"],
      ESReq.getIndices "envelopes*",
      ESReq.deleteIndex "envelopes_1"].countP
        (fun r => match r with | .updateAliases _ => true | _ => false)) = 1 ∧
    ESReq.updateAliases [.removeAlias "*" "envelopes_current",
      .addAlias "envelopes_2" "envelopes_current"] ∈
      ([ESReq.updateAliases [.removeAlias "*" "envelopes_current",
          .addAlias "envelopes_2" "envelopes_current"],
        ESReq.getIndices "envelopes*", ESReq.deleteIndex "envelopes_1"]) ∧
    (⟨["latch", "envelopes_2"], ["envelopes_2"], ["envelopes_2"]⟩ :
        ESState).indices.filter matchesEnvelopes = ["envelopes_2"] ∧
    (⟨["latch", "envelopes_2"], ["envelopes_2"], ["envelopes_2"]⟩ :
        ESState).aliased = ["envelopes_2"] :=
  index_promotion_atomic_and_gc
    ⟨["latch", "envelopes_1", "envelopes_2"], ["envelopes_1"],
     ["envelopes_1", "envelopes_2"]⟩
    "envelopes_2"
    ⟨["latch", "envelopes_2"], ["envelopes_2"], ["envelopes_2"]⟩
    [ESReq.updateAliases [.removeAlias "*" "envelopes_current",
       .addAlias "envelopes_2" "envelopes_current"],
     ESReq.getIndices "envelopes*", ESReq.deleteIndex "envelopes_1"]
    (by decide) (by decide) (by decide) (by decide)

theorem matchesEnvelopes_gen (t : String) :
    matchesEnvelopes ("envelopes_" ++ t) = true := by
  unfold matchesEnvelopes
  rw [String.data_append]
  rfl

theorem gen_ne_latch (t : String) : ("envelopes_" ++ t) ≠ "latch" := by
  intro h
  have hl := congrArg String.length h
  rw [String.length_append] at hl
  have h10 : ("envelopes_" : String).length = 10 := rfl
  have h5 : ("latch" : String).length = 5 := rfl
  rw [h10, h5] at hl
  omega

/-- C7: when the atomic creation of the latch index reports that it
already exists, `setup` terminates successfully having created no index
generation and changed no alias (the state is returned unchanged and only
the latch-create attempt was issued); when the latch is acquired, a
generation uniquely named from the current epoch milliseconds is created,
mapped and promoted to be the sole holder of the active alias. -/
theorem rebuild_latch_mutual_exclusion (now : Nat) (s : ESState) :
    (s.indices.contains "latch" = true →
      remoteSetup now s = some (s, [ESReq.createIndex "latch"])) ∧
    (s.indices.contains "latch" = false →
      ("envelopes_" ++ toString now) ∉ s.indices →
      ∃ s' reqs, remoteSetup now s = some (s', reqs) ∧
        ("envelopes_" ++ toString now) ∈ s'.indices ∧
        s'.aliased = ["envelopes_" ++ toString now] ∧
        ("envelopes_" ++ toString now) ∈ s'.mapped) := by
  constructor
  · intro h
    unfold remoteSetup
    rw [if_pos h]
  · intro h hfresh
    have hlatch : ¬s.indices.contains "latch" = true := by
      intro hc
      rw [h] at hc
      exact Bool.false_ne_true hc
    have hgen0 : ({ s with indices := "latch" :: s.indices } :
        ESState).indices.contains ("envelopes_" ++ toString now) = false := by
      rw [Bool.eq_false_iff]
      intro hc
      rcases List.mem_cons.mp (by simpa using hc) with hc1 | hc2
      · exact gen_ne_latch (toString now) hc1
      · exact hfresh hc2
    unfold remoteSetup
    rw [if_neg hlatch]
    unfold createNewIndex
    rw [if_neg (by intro hc; rw [hgen0] at hc; exact Bool.false_ne_true hc)]
    dsimp only
    rw [makeIndexActive_promotes _ _ (List.mem_cons_self _ _)]
    refine ⟨_, _, rfl, ?_, ?_, ?_⟩
    · apply List.mem_filter.mpr
      refine ⟨List.mem_cons_self _ _, ?_⟩
      simp
      exact not_mem_gcNames_self _ _
    · simp
      exact not_mem_gcNames_self _ _
    · apply List.mem_filter.mpr
      refine ⟨List.mem_cons_self _ _, ?_⟩
      simp
      exact not_mem_gcNames_self _ _

/-- Witness for the C7 theorem: a latched cluster returns unchanged; an
unlatched empty cluster gets a promoted generation. -/
theorem rebuild_latch_mutual_exclusion_witness :
    remoteSetup 7 ⟨["latch"], [], []⟩ =
      some (⟨["latch"], [], []⟩, [ESReq.createIndex "latch"]) ∧
    ∃ s' reqs, remoteSetup 7 ⟨[], [], []⟩ = some (s', reqs) ∧
      ("envelopes_" ++ toString 7) ∈ s'.indices ∧
      s'.aliased = ["envelopes_" ++ toString 7] ∧
      ("envelopes_" ++ toString 7) ∈ s'.mapped :=
  ⟨(rebuild_latch_mutual_exclusion 7 ⟨["latch"], [], []⟩).1 (by decide),
   (rebuild_latch_mutual_exclusion 7 ⟨[], [], []⟩).2 (by decide) (by decide)⟩

/-- C1: for every interleaving of the archive-decode-finish event with
the completions of the outstanding queued tasks — in either order,
including the queue being already idle when decoding finishes —
`finishRequest` (reconciliation followed by the completion report) runs
exactly once: it never runs twice and never fails to run. -/
theorem bulk_completion_signaled_exactly_once (r0 : Nat) (tr : List BulkEvent)
    (hF : countF tr = 1) (hT : r0 ≤ countT tr) :
    (runEvents ⟨r0, false, false, 0⟩ tr).completions = 1 :=
  runEvents_completions tr ⟨r0, false, false, 0⟩ (fun _ => ⟨hF, rfl, rfl⟩)
    (fun hfin => absurd hfin Bool.false_ne_true) hT

/-- Witness for the C1 theorem: two outstanding tasks, one completing
before decode finishes and one after. -/
theorem bulk_completion_signaled_exactly_once_witness :
    countF [BulkEvent.taskDone, BulkEvent.decodeFinish, BulkEvent.taskDone] = 1 ∧
    2 ≤ countT [BulkEvent.taskDone, BulkEvent.decodeFinish, BulkEvent.taskDone] ∧
    (runEvents ⟨2, false, false, 0⟩
      [BulkEvent.taskDone, BulkEvent.decodeFinish, BulkEvent.taskDone]).completions = 1 :=
  ⟨by decide, by decide,
   bulk_completion_signaled_exactly_once 2 _ (by decide) (by decide)⟩

/-- Witness for the C8 theorem at the concrete `perPage`-item store. -/
theorem listContent_two_pages_witness :
    listContentRun c8Fetch 2 none = some (2, [c8Items, []]) ∧
    ([c8Items, []] : List (List String)).flatten = c8Items :=
  listContent_two_pages c8Fetch c8Items 2 rfl
    (by simp [c8Items, List.length_map, List.length_range]) rfl (by omega)
